import Mathlib

/-!
Verification development for the imgcat package (src/imgcat/imgcat.go), a
streaming encoder that wraps binary image data in the iTerm2 inline-image
escape-sequence protocol.

The shallow embedding below models:
- the standard padded base64 encoding (Go encoding/base64, StdEncoding),
  both as a whole-input function and as the streaming chunker that the
  base64.NewEncoder wrapper realizes (full 3-byte groups emitted as they
  become available, a partial group flushed on Close);
- the header/footer framing (headerEscape/footerEscape, lines 123-136);
- the option constructors (Cells, Pixels, Percent, Auto, Name, Size, Width,
  Height, PreserveAspectRatio, Inline, lines 34-92);
- io.Pipe close semantics (each end closes at most once, the first close
  error sticks, CloseWithError always returns nil);
- Encoder.Encode (lines 156-191) as a function from the source's read
  results and the destination sink's write results to the trace of write
  events performed on the destination plus the returned error;
- the Writer adapter and writer.Close (lines 194-220).

Bytes are Nat (with explicit < 256 hypotheses where byte range matters),
errors are strings, and fallible operations return Option/Except values.
-/

/-- Go error values are modelled as strings; none = nil error. -/
abbrev GoErr := String

/-- The standard base64 alphabet (Go base64.StdEncoding). -/
def b64Alphabet : List Char :=
  "ABCDEFGHIJKLMNOPQRSTUVWXYZabcdefghijklmnopqrstuvwxyz0123456789+/".data

/-- Character for a 6-bit value, per the standard alphabet. -/
def b64Char (n : Nat) : Char := b64Alphabet.getD n 'A'

/-- Index of a character in the standard alphabet (base64 decode table). -/
def b64Index (c : Char) : Nat := List.findIdx (fun x => x == c) b64Alphabet

/-- Base64 encoding of a full 3-byte group (4 output characters). -/
def encGroup3 (b0 b1 b2 : Nat) : List Char :=
  [b64Char (b0 / 4), b64Char (b0 % 4 * 16 + b1 / 16),
   b64Char (b1 % 16 * 4 + b2 / 64), b64Char (b2 % 64)]

/-- Base64 encoding of a trailing 2-byte group (3 characters plus one pad). -/
def encGroup2 (b0 b1 : Nat) : List Char :=
  [b64Char (b0 / 4), b64Char (b0 % 4 * 16 + b1 / 16),
   b64Char (b1 % 16 * 4), '=']

/-- Base64 encoding of a trailing 1-byte group (2 characters plus two pads). -/
def encGroup1 (b0 : Nat) : List Char :=
  [b64Char (b0 / 4), b64Char (b0 % 4 * 16), '=', '=']

/-- Standard padded base64 encoding of a byte sequence
(Go base64.StdEncoding.EncodeToString). -/
def b64Encode : List Nat → List Char
  | [] => []
  | [b0] => encGroup1 b0
  | [b0, b1] => encGroup2 b0 b1
  | b0 :: b1 :: b2 :: rest => encGroup3 b0 b1 b2 ++ b64Encode rest

/-- Standard base64 decoding: groups of four characters, a trailing
group may carry one or two padding characters. -/
def b64Decode : List Char → List Nat
  | c0 :: c1 :: c2 :: c3 :: rest =>
    let i0 := b64Index c0
    let i1 := b64Index c1
    if c2 = '=' then [i0 * 4 + i1 / 16]
    else
      let i2 := b64Index c2
      if c3 = '=' then [i0 * 4 + i1 / 16, i1 % 16 * 16 + i2 / 4]
      else
        (i0 * 4 + i1 / 16) :: (i1 % 16 * 16 + i2 / 4) ::
          (i2 % 4 * 64 + b64Index c3) :: b64Decode rest
  | _ => []

/-- Streaming step of the base64 encoder: encode all complete 3-byte groups
at the front of the buffered input, return the emitted characters and the
remaining (at most two) buffered bytes. Models the write path of
base64.NewEncoder, which emits full groups and buffers the remainder. -/
def b64Full : List Nat → List Char × List Nat
  | [] => ([], [])
  | [b0] => ([], [b0])
  | [b0, b1] => ([], [b0, b1])
  | b0 :: b1 :: b2 :: rest =>
    let p := b64Full rest
    (encGroup3 b0 b1 b2 ++ p.1, p.2)

/-- Tag classifying each write performed on the destination sink. -/
inductive Tag
  | header
  | body
  | footer
deriving DecidableEq, Repr

/-- Protocol introducer plus attribute prelude (headerEscape, lines 123-128).
The tmux argument models the IsTmux() environment lookup. -/
def headerEscape (tmux : Bool) : List Char :=
  if tmux then "\x1bPtmux;\x1b\x1b]1337;File=".data else "\x1b]1337;File=".data

/-- Protocol terminator (footerEscape, lines 131-136). -/
def footerEscape (tmux : Bool) : List Char :=
  if tmux then "\x07\x1b\\\n".data else "\x07\n".data

/-- Semicolon-joined option strings, as written by the loop in
Encoder.Encode (lines 159-164): each option, with a semicolon after every
option but the last. -/
def joinOpts : List String → List Char
  | [] => []
  | [o] => o.data
  | o :: rest => o.data ++ ';' :: joinOpts rest

/-- The full header written by Encoder.Encode (lines 157-165):
introducer, joined options, and a single colon terminator. -/
def encodeHeader (options : List String) (tmux : Bool) : List Char :=
  headerEscape tmux ++ joinOpts options ++ [':']

/-- Cells (line 34): a length in character cells, fmt.Sprint(x). -/
def Cells (x : Int) : String := toString x

/-- Pixels (line 37): a length in pixels. -/
def Pixels (x : Int) : String := toString x ++ "px"

/-- Percent (line 40): a length relative to the session size. -/
def Percent (x : Int) : String := toString x ++ "%"

/-- Auto (line 43): the inherent size. -/
def Auto : String := "auto"

/-- Size (lines 57-59): the size option. Go's Option type is a string. -/
def Size (size : Int) : String := "size=" ++ toString size

/-- Width (lines 62-64). -/
def Width (l : String) : String := "width=" ++ l

/-- Height (lines 67-69). -/
def Height (l : String) : String := "height=" ++ l

/-- boolToInt (lines 71-76), rendered as the digit Go prints. -/
def boolToInt (b : Bool) : String := if b then "1" else "0"

/-- PreserveAspectRatio (lines 82-84). -/
def PreserveAspectRatio (b : Bool) : String :=
  "preserveAspectRatio=" ++ boolToInt b

/-- Inline (lines 90-92). -/
def Inline (b : Bool) : String := "inline=" ++ boolToInt b

/-- State of one io.Pipe: whether each end has been closed and the error
it was closed with (none models a nil error, read back as EOF). -/
structure PipeState where
  wclosed : Bool
  werr : Option GoErr
  rclosed : Bool
  rerr : Option GoErr
deriving DecidableEq, Repr

/-- A freshly created pipe: both ends open, no error recorded. -/
def pipeInit : PipeState :=
  { wclosed := false, werr := none, rclosed := false, rerr := none }

/-- io.PipeWriter.CloseWithError: records the error of the first close of
the write end (later closes are no-ops) and always returns nil. -/
def writerCloseWithError (p : PipeState) (e : Option GoErr) :
    PipeState × Option GoErr :=
  if p.wclosed then (p, none)
  else ({ p with wclosed := true, werr := e }, none)

/-- io.PipeReader.CloseWithError: same once-only semantics for the read
end; always returns nil. -/
def readerCloseWithError (p : PipeState) (e : Option GoErr) :
    PipeState × Option GoErr :=
  if p.rclosed then (p, none)
  else ({ p with rclosed := true, rerr := e }, none)

/-- io.PipeWriter.Close is CloseWithError(nil). -/
def pipeWriterClose (p : PipeState) : PipeState × Option GoErr :=
  writerCloseWithError p none

/-- Error result of a write on the pipe write end: ErrClosedPipe after the
write end is closed; the reader close error (or ErrClosedPipe) after the
read end is closed; otherwise the write succeeds. -/
def pipeWrite (p : PipeState) : Option GoErr :=
  if p.wclosed then some "io: read/write on closed pipe"
  else if p.rclosed then some (p.rerr.getD "io: read/write on closed pipe")
  else none

/-- The transcode goroutine of Encoder.Encode (lines 166-185), restricted
to its pipe-closing behavior. copyErr is the result of io.Copy from the
image source into the base64 encoder (the first source read error, if any);
pending says whether the encoder still buffers a partial group then. On a
copy error the goroutine closes the pipe with it, and the deferred
enc.Close() then fails to flush any pending group into the closed pipe and
issues a second CloseWithError, which is a no-op. On success enc.Close()
flushes cleanly, the pipe is closed with nil, and the deferred second
enc.Close() returns nil so no further close occurs. -/
def transcodeFinalize (p : PipeState) (copyErr : Option GoErr)
    (pending : Bool) : PipeState :=
  match copyErr with
  | some e =>
    let p1 := (writerCloseWithError p (some e)).1
    if pending
    then (writerCloseWithError p1 (some "io: read/write on closed pipe")).1
    else p1
  | none => (writerCloseWithError p none).1

/-- Body chunks the transcode stage emits into the pipe, one per source
chunk that completes at least one 3-byte group, threading the buffered
partial group (the carry) across chunks. Returns the emitted chunks and
the final carry. -/
def transcodeChunks : List Nat → List (List Nat) → List (List Char) × List Nat
  | carry, [] => ([], carry)
  | carry, c :: rest =>
    let p := b64Full (carry ++ c)
    let q := transcodeChunks p.2 rest
    (if p.1.isEmpty then q.1 else p.1 :: q.1, q.2)

/-- The drain loop of io.Copy writing into the destination sink: sink i is
the error result of the i-th write on the destination. Writes proceed in
order; the first failing write is the last one attempted. Returns the
trace of attempted writes and the first write error. -/
def drainWrites (sink : Nat → Option GoErr) :
    Nat → List (Tag × List Char) → List (Tag × List Char) × Option GoErr
  | _, [] => ([], none)
  | i, w :: rest =>
    match sink i with
    | some e => ([w], some e)
    | none =>
      let p := drainWrites sink (i + 1) rest
      (w :: p.1, p.2)

/-- The tail of Encoder.Encode (lines 187-190): drain header and body
chunks into the destination; if the pipe was closed with an error, return
it without touching the footer; otherwise write the footer and return its
write result. -/
def composeDrain (sink : Nat → Option GoErr) (pre : List (Tag × List Char))
    (term : Option GoErr) (ftr : List Char) :
    List (Tag × List Char) × Option GoErr :=
  match drainWrites sink 0 pre with
  | (tr, some e) => (tr, some e)
  | (tr, none) =>
    match term with
    | some e => (tr, some e)
    | none => (tr ++ [(Tag.footer, ftr)], sink pre.length)

/-- A destination sink whose writes all succeed. -/
def okSink : Nat → Option GoErr := fun _ => none

/-- The body chunk sequence a clean-source run delivers through the pipe:
the streamed full-group chunks followed by the flush of the final partial
group on enc.Close (absent when no bytes are pending). -/
def encodeBodyChunks (srcChunks : List (List Nat)) : List (List Char) :=
  let tc := transcodeChunks [] srcChunks
  if tc.2.isEmpty then tc.1 else tc.1 ++ [b64Encode tc.2]

/-- Encoder.Encode (lines 156-191). The image source is modelled by its
read results: srcChunks are the chunks successfully read, in order, and
readErr is the error ending the read loop (none models clean end of
input). sink gives the error result of each write on the destination.
The result is the trace of writes performed on the destination, each
tagged header, body or footer, together with the returned error. -/
def Encode (options : List String) (tmux : Bool) (srcChunks : List (List Nat))
    (readErr : Option GoErr) (sink : Nat → Option GoErr) :
    List (Tag × List Char) × Option GoErr :=
  let bodyChunks : List (List Char) :=
    match readErr with
    | some _ => (transcodeChunks [] srcChunks).1
    | none => encodeBodyChunks srcChunks
  let pipeAfter := transcodeFinalize pipeInit readErr
    (!(transcodeChunks [] srcChunks).2.isEmpty)
  let pre := (Tag.header, encodeHeader options tmux) ::
    bodyChunks.map (fun c => (Tag.body, c))
  composeDrain sink pre pipeAfter.werr (footerEscape tmux)

/-- The byte stream a run of Encoder.Encode delivers to the destination:
the concatenation of all writes performed. -/
def encodeOutput (options : List String) (tmux : Bool)
    (srcChunks : List (List Nat)) : List Char :=
  ((Encode options tmux srcChunks none okSink).1.map Prod.snd).flatten

/-- State of the Sink Adapter handle returned by Encoder.Writer
(lines 194-210): the pipe feeding the background Encode, and whether the
done channel has been closed. -/
structure WriterState where
  pw : PipeState
  done : Bool
deriving DecidableEq, Repr

/-- The handle as Encoder.Writer returns it (lines 195-196). -/
def writerInit : WriterState :=
  { pw := pipeInit, done := false }

/-- Completion of the background goroutine of Encoder.Writer
(lines 197-203): r is the terminal error of enc.Encode(pr). On a non-nil
error the goroutine closes the pipe read end with it; the deferred
close(w.done) then marks completion. The error is recorded nowhere else. -/
def writerFinish (st : WriterState) (r : Option GoErr) : WriterState :=
  let p :=
    match r with
    | some e => (readerCloseWithError st.pw (some e)).1
    | none => st.pw
  { pw := p, done := true }

/-- writer.Write (line 212) forwards to the pipe write end; only the error
result is modelled. -/
def writerWrite (st : WriterState) : Option GoErr := pipeWrite st.pw

/-- writer.Close (lines 214-220): close the pipe write end; if that close
errored, return its error; otherwise receive from the done channel and
return nil. The third component records whether the receive had to block
(the done channel was not yet closed on entry); on return the done channel
is closed, so the returned state has done = true. -/
def writerClose (st : WriterState) : WriterState × Option GoErr × Bool :=
  let c := pipeWriterClose st.pw
  match c.2 with
  | some e => ({ st with pw := c.1 }, some e, false)
  | none => ({ st with pw := c.1, done := true }, none, !st.done)

/-- bytes.Buffer as a write sink: appends and never fails
(Buffer.Write is documented to always return a nil error). -/
def bufferWrite (buf : List Char) (out : List Char) :
    Except GoErr (List Char) := Except.ok (buf ++ out)

/-- Write path of base64.NewEncoder over an arbitrary fallible sink:
encode the complete groups of the carried plus incoming bytes, write them
to the sink if there are any, and buffer the remainder. -/
def b64SinkWrite {σ : Type} (wr : σ → List Char → Except GoErr σ) (s : σ)
    (carry input : List Nat) : Except GoErr (σ × List Nat) :=
  let p := b64Full (carry ++ input)
  if p.1.isEmpty then Except.ok (s, p.2)
  else
    match wr s p.1 with
    | Except.ok s2 => Except.ok (s2, p.2)
    | Except.error e => Except.error e

/-- Close path of base64.NewEncoder: flush the buffered partial group,
padded, through the sink. -/
def b64SinkClose {σ : Type} (wr : σ → List Char → Except GoErr σ) (s : σ)
    (carry : List Nat) : Except GoErr σ :=
  if carry.isEmpty then Except.ok s
  else
    match wr s (b64Encode carry) with
    | Except.ok s2 => Except.ok s2
    | Except.error e => Except.error e

/-- Name (lines 46-54): base64-encode the name into a fresh bytes.Buffer
through base64.NewEncoder, treat a non-nil Close error as fatal (the
Except.error case models the log.Fatalf branch), and prepend the
attribute key. -/
def Name (name : List Nat) : Except GoErr (List Char) :=
  match b64SinkWrite bufferWrite [] [] name with
  | Except.error e => Except.error e
  | Except.ok sp =>
    match b64SinkClose bufferWrite sp.1 sp.2 with
    | Except.error e => Except.error e
    | Except.ok buf => Except.ok ("name=".data ++ buf)

/-- A destination sink whose second write (index 1) fails: concrete
fixture for exercising the write-failure path. -/
def boomSink : Nat → Option GoErr :=
  fun i => if i = 1 then some "boom" else none

theorem b64Index_b64Char : ∀ n, n < 64 → b64Index (b64Char n) = n := by decide

theorem b64Char_ne_pad : ∀ n, n < 64 → b64Char n ≠ '=' := by decide

theorem b64Decode_encGroup3 (b0 b1 b2 : Nat) (cs : List Char)
    (h0 : b0 < 256) (h1 : b1 < 256) (h2 : b2 < 256) :
    b64Decode (encGroup3 b0 b1 b2 ++ cs) = b0 :: b1 :: b2 :: b64Decode cs := by
  have e1 : b0 % 4 * 16 + b1 / 16 < 64 := by omega
  have e2 : b1 % 16 * 4 + b2 / 64 < 64 := by omega
  have e3 : b2 % 64 < 64 := by omega
  simp only [encGroup3, List.cons_append, List.nil_append, b64Decode]
  rw [if_neg (b64Char_ne_pad _ e2), if_neg (b64Char_ne_pad _ e3)]
  rw [b64Index_b64Char _ (by omega : b0 / 4 < 64), b64Index_b64Char _ e1,
    b64Index_b64Char _ e2, b64Index_b64Char _ e3]
  simp only [List.cons.injEq]
  refine ⟨by omega, by omega, by omega, rfl⟩

theorem b64Decode_encGroup2 (b0 b1 : Nat) (h0 : b0 < 256) (h1 : b1 < 256) :
    b64Decode (encGroup2 b0 b1) = [b0, b1] := by
  have e1 : b0 % 4 * 16 + b1 / 16 < 64 := by omega
  have e2 : b1 % 16 * 4 < 64 := by omega
  simp only [encGroup2, b64Decode]
  rw [if_neg (b64Char_ne_pad _ e2)]
  rw [b64Index_b64Char _ (by omega : b0 / 4 < 64), b64Index_b64Char _ e1,
    b64Index_b64Char _ e2]
  simp only [if_true, List.cons.injEq]
  refine ⟨by omega, by omega, trivial⟩

theorem b64Decode_encGroup1 (b0 : Nat) (h0 : b0 < 256) :
    b64Decode (encGroup1 b0) = [b0] := by
  have e1 : b0 % 4 * 16 < 64 := by omega
  simp only [encGroup1, b64Decode]
  rw [b64Index_b64Char _ (by omega : b0 / 4 < 64), b64Index_b64Char _ e1]
  simp only [if_true, List.cons.injEq]
  refine ⟨by omega, trivial⟩

/-- Round-trip law: standard base64 decoding inverts the encoding on byte
sequences. -/
theorem b64_roundtrip : ∀ l : List Nat, (∀ b ∈ l, b < 256) →
    b64Decode (b64Encode l) = l := by
  intro l
  induction l using b64Encode.induct with
  | case1 => intro _; rfl
  | case2 b0 =>
    intro h
    exact b64Decode_encGroup1 b0 (h b0 (by simp))
  | case3 b0 b1 =>
    intro h
    exact b64Decode_encGroup2 b0 b1 (h b0 (by simp)) (h b1 (by simp))
  | case4 b0 b1 b2 rest ih =>
    intro h
    rw [b64Encode, b64Decode_encGroup3 b0 b1 b2 _ (h b0 (by simp))
      (h b1 (by simp)) (h b2 (by simp))]
    rw [ih (fun b hb => h b (by simp [hb]))]

theorem b64Full_spec : ∀ l, (b64Full l).1 ++ b64Encode (b64Full l).2 =
    b64Encode l := by
  intro l
  induction l using b64Full.induct with
  | case1 => rfl
  | case2 b0 => rfl
  | case3 b0 b1 => rfl
  | case4 b0 b1 b2 rest ih =>
    simp only [b64Full, b64Encode, List.append_assoc]
    rw [ih]

theorem b64Full_rem_short : ∀ l, (b64Full l).2.length ≤ 2 := by
  intro l
  induction l using b64Full.induct with
  | case1 => simp [b64Full]
  | case2 b0 => simp [b64Full]
  | case3 b0 b1 => simp [b64Full]
  | case4 b0 b1 b2 rest ih => simpa [b64Full] using ih

theorem b64Full_short : ∀ l : List Nat, l.length ≤ 2 → b64Full l = ([], l) := by
  intro l h
  rcases l with _ | ⟨a, _ | ⟨b, _ | ⟨c, r⟩⟩⟩
  · rfl
  · rfl
  · rfl
  · simp at h

theorem b64Full_append : ∀ a b : List Nat, b64Full (a ++ b) =
    ((b64Full a).1 ++ (b64Full ((b64Full a).2 ++ b)).1,
      (b64Full ((b64Full a).2 ++ b)).2) := by
  intro a
  induction a using b64Full.induct with
  | case1 => intro b; simp [b64Full]
  | case2 b0 => intro b; simp [b64Full]
  | case3 b0 b1 => intro b; simp [b64Full]
  | case4 b0 b1 b2 rest ih =>
    intro b
    show b64Full (b0 :: b1 :: b2 :: (rest ++ b)) = _
    simp only [b64Full, ih b, List.append_assoc]

theorem transcodeChunks_spec : ∀ (cs : List (List Nat)) (carry : List Nat),
    carry.length ≤ 2 →
    (transcodeChunks carry cs).1.flatten =
        (b64Full (carry ++ cs.flatten)).1 ∧
      (transcodeChunks carry cs).2 = (b64Full (carry ++ cs.flatten)).2 := by
  intro cs
  induction cs with
  | nil =>
    intro carry h
    simp [transcodeChunks, b64Full_short carry h]
  | cons c rest ih =>
    intro carry h
    have hrem := b64Full_rem_short (carry ++ c)
    have hih := ih (b64Full (carry ++ c)).2 hrem
    have happ := b64Full_append (carry ++ c) rest.flatten
    constructor
    · show (if (b64Full (carry ++ c)).1.isEmpty
          then (transcodeChunks (b64Full (carry ++ c)).2 rest).1
          else (b64Full (carry ++ c)).1 ::
            (transcodeChunks (b64Full (carry ++ c)).2 rest).1).flatten = _
      have hcat : carry ++ (c :: rest).flatten = (carry ++ c) ++ rest.flatten := by
        simp [List.flatten]
      rw [hcat, happ]
      rcases hemp : (b64Full (carry ++ c)).1.isEmpty with _ | _
      · simp [hih.1]
      · have hnil : (b64Full (carry ++ c)).1 = [] := by
          simpa using hemp
        simp [hih.1, hnil]
    · show (transcodeChunks (b64Full (carry ++ c)).2 rest).2 = _
      have hcat : carry ++ (c :: rest).flatten = (carry ++ c) ++ rest.flatten := by
        simp [List.flatten]
      rw [hcat, happ, hih.2]

theorem drainWrites_ok (sink : Nat → Option GoErr) :
    ∀ (ws : List (Tag × List Char)) (i : Nat),
    (∀ j, j < ws.length → sink (i + j) = none) →
    drainWrites sink i ws = (ws, none) := by
  intro ws
  induction ws with
  | nil => intro i _; rfl
  | cons w rest ih =>
    intro i h
    have h0 : sink i = none := by simpa using h 0 (by simp)
    have hrec := ih (i + 1) (fun j hj => by
      have ee : i + 1 + j = i + (j + 1) := by omega
      rw [ee]
      exact h (j + 1) (by simpa using Nat.succ_lt_succ hj))
    simp [drainWrites, h0, hrec]

theorem drainWrites_fail (sink : Nat → Option GoErr) (e : GoErr) :
    ∀ (ws : List (Tag × List Char)) (i k : Nat),
    sink (i + k) = some e → (∀ j, j < k → sink (i + j) = none) →
    k < ws.length →
    drainWrites sink i ws = (ws.take (k + 1), some e) := by
  intro ws
  induction ws with
  | nil =>
    intro i k _ _ hlen
    simp at hlen
  | cons w rest ih =>
    intro i k hfail hsucc hlen
    cases k with
    | zero =>
      have h0 : sink i = some e := by simpa using hfail
      simp [drainWrites, h0]
    | succ k2 =>
      have h0 : sink i = none := by simpa using hsucc 0 (Nat.succ_pos _)
      have hfail2 : sink (i + 1 + k2) = some e := by
        have ee : i + 1 + k2 = i + (k2 + 1) := by omega
        rw [ee]
        exact hfail
      have hsucc2 : ∀ j, j < k2 → sink (i + 1 + j) = none := by
        intro j hj
        have ee : i + 1 + j = i + (j + 1) := by omega
        rw [ee]
        exact hsucc (j + 1) (by omega)
      have hlen2 : k2 < rest.length := by
        simpa using Nat.lt_of_succ_lt_succ hlen
      simp [drainWrites, h0, ih (i + 1) k2 hfail2 hsucc2 hlen2]

theorem drainWrites_cases (sink : Nat → Option GoErr) :
    ∀ (ws : List (Tag × List Char)) (i : Nat),
    drainWrites sink i ws = (ws, none) ∨
      ∃ k e, k + 1 ≤ ws.length ∧
        drainWrites sink i ws = (ws.take (k + 1), some e) := by
  intro ws
  induction ws with
  | nil => intro _; left; rfl
  | cons w rest ih =>
    intro i
    cases hs : sink i with
    | some e =>
      right
      exact ⟨0, e, by simp, by simp [drainWrites, hs]⟩
    | none =>
      rcases ih (i + 1) with hok | ⟨k, e, hk, heq⟩
      · left
        simp [drainWrites, hs, hok]
      · right
        refine ⟨k + 1, e, by simpa using Nat.succ_le_succ hk, ?_⟩
        simp [drainWrites, hs, heq]

theorem transcodeFinalize_pipeInit : ∀ (r : Option GoErr) (b : Bool),
    transcodeFinalize pipeInit r b =
      { wclosed := true, werr := r, rclosed := false, rerr := none } := by
  intro r b
  cases r <;> cases b <;> rfl

theorem encodeBodyChunks_flatten (srcChunks : List (List Nat)) :
    (encodeBodyChunks srcChunks).flatten = b64Encode srcChunks.flatten := by
  have hs := transcodeChunks_spec srcChunks [] (by simp)
  rw [List.nil_append] at hs
  have hfull := b64Full_spec srcChunks.flatten
  simp only [encodeBodyChunks]
  rcases hemp : (transcodeChunks [] srcChunks).2.isEmpty with _ | _
  · rw [if_neg (by simp [hemp])]
    rw [List.flatten_append]
    simp only [List.flatten_cons, List.flatten_nil, List.append_nil]
    rw [hs.1, hs.2]
    exact hfull
  · have hnil : (transcodeChunks [] srcChunks).2 = [] := by simpa using hemp
    rw [if_pos rfl]
    rw [hs.1]
    rw [hs.2] at hnil
    rw [hnil] at hfull
    rw [show b64Encode ([] : List Nat) = [] from rfl, List.append_nil] at hfull
    exact hfull

theorem Encode_clean (options : List String) (tmux : Bool)
    (srcChunks : List (List Nat)) :
    Encode options tmux srcChunks none okSink =
      ((Tag.header, encodeHeader options tmux) ::
        ((encodeBodyChunks srcChunks).map (fun c => (Tag.body, c)) ++
          [(Tag.footer, footerEscape tmux)]), none) := by
  simp only [Encode, composeDrain, transcodeFinalize_pipeInit]
  rw [drainWrites_ok okSink _ 0 (fun j _ => rfl)]
  rfl

theorem encodeOutput_eq (options : List String) (tmux : Bool)
    (srcChunks : List (List Nat)) :
    encodeOutput options tmux srcChunks =
      encodeHeader options tmux ++ b64Encode srcChunks.flatten ++
        footerEscape tmux := by
  unfold encodeOutput
  rw [Encode_clean]
  simp [List.map_map, Function.comp, encodeBodyChunks_flatten]

theorem composeDrain_none (sink : Nat → Option GoErr)
    (pre : List (Tag × List Char)) (term : Option GoErr) (ftr : List Char)
    (h : (composeDrain sink pre term ftr).2 = none) :
    term = none ∧
      composeDrain sink pre term ftr = (pre ++ [(Tag.footer, ftr)], none) := by
  unfold composeDrain at h ⊢
  rcases drainWrites_cases sink pre 0 with hok | ⟨k, e2, _, heq⟩
  · rw [hok] at h ⊢
    cases term with
    | some e => simp at h
    | none => simpa using h
  · rw [heq] at h
    simp at h

theorem Encode_eq_of_none (options : List String) (tmux : Bool)
    (srcChunks : List (List Nat)) (readErr : Option GoErr)
    (sink : Nat → Option GoErr)
    (h : (Encode options tmux srcChunks readErr sink).2 = none) :
    Encode options tmux srcChunks readErr sink =
      Encode options tmux srcChunks none okSink := by
  cases readErr with
  | some e =>
    exfalso
    simp only [Encode, transcodeFinalize_pipeInit] at h
    obtain ⟨hterm, _⟩ := composeDrain_none _ _ _ _ h
    simp at hterm
  | none =>
    simp only [Encode, transcodeFinalize_pipeInit] at h ⊢
    obtain ⟨_, heq⟩ := composeDrain_none _ _ _ _ h
    rw [heq]
    unfold composeDrain
    rw [drainWrites_ok okSink _ 0 (fun j _ => rfl)]
    rfl

theorem map_fst_bodyMap (hdr : List Char) (bs : List (List Char)) :
    ((Tag.header, hdr) :: bs.map (fun c => (Tag.body, c))).map Prod.fst =
      Tag.header :: List.replicate bs.length Tag.body := by
  simp [List.map_map, Function.comp, List.map_const]

theorem composeDrain_okSink_some (pre : List (Tag × List Char))
    (e2 : GoErr) (ftr : List Char) :
    composeDrain okSink pre (some e2) ftr = (pre, some e2) := by
  unfold composeDrain
  rw [drainWrites_ok okSink pre 0 (fun j _ => rfl)]

theorem composeDrain_okSink_none (pre : List (Tag × List Char))
    (ftr : List Char) :
    composeDrain okSink pre none ftr =
      (pre ++ [(Tag.footer, ftr)], none) := by
  unfold composeDrain
  rw [drainWrites_ok okSink pre 0 (fun j _ => rfl)]
  rfl

theorem composeDrain_fail_some (sink : Nat → Option GoErr)
    (pre : List (Tag × List Char)) (e2 : GoErr) (ftr : List Char)
    (k : Nat) (e : GoErr)
    (hfail : sink k = some e) (hsucc : ∀ j, j < k → sink j = none)
    (hlt : k < pre.length) :
    composeDrain sink pre (some e2) ftr = (pre.take (k + 1), some e) := by
  unfold composeDrain
  rw [drainWrites_fail sink e pre 0 k (by simpa using hfail)
    (fun j hj => by simpa using hsucc j hj) hlt]

theorem composeDrain_fail_none_lt (sink : Nat → Option GoErr)
    (pre : List (Tag × List Char)) (ftr : List Char)
    (k : Nat) (e : GoErr)
    (hfail : sink k = some e) (hsucc : ∀ j, j < k → sink j = none)
    (hlt : k < pre.length) :
    composeDrain sink pre none ftr = (pre.take (k + 1), some e) := by
  unfold composeDrain
  rw [drainWrites_fail sink e pre 0 k (by simpa using hfail)
    (fun j hj => by simpa using hsucc j hj) hlt]

theorem composeDrain_fail_none_eq (sink : Nat → Option GoErr)
    (pre : List (Tag × List Char)) (ftr : List Char) (e : GoErr)
    (hfail : sink pre.length = some e)
    (hsucc : ∀ j, j < pre.length → sink j = none) :
    composeDrain sink pre none ftr =
      (pre ++ [(Tag.footer, ftr)], some e) := by
  unfold composeDrain
  rw [drainWrites_ok sink pre 0 (fun j hj => by simpa using hsucc j hj)]
  simp [hfail]

theorem composeDrain_tags (sink : Nat → Option GoErr) (hdr : List Char)
    (bs : List (List Char)) (term : Option GoErr) (ftr : List Char) :
    ∃ n t,
      (composeDrain sink ((Tag.header, hdr) ::
          bs.map (fun c => (Tag.body, c))) term ftr).1.map Prod.fst =
        Tag.header :: (List.replicate n Tag.body ++ t) ∧
        (t = [] ∨ t = [Tag.footer]) := by
  have hmap := map_fst_bodyMap hdr bs
  unfold composeDrain
  rcases drainWrites_cases sink
      ((Tag.header, hdr) :: bs.map (fun c => (Tag.body, c))) 0 with
    hok | ⟨k, e, hk, heq⟩
  · rw [hok]
    cases term with
    | some e2 => exact ⟨bs.length, [], by simp [hmap], Or.inl rfl⟩
    | none => exact ⟨bs.length, [Tag.footer], by simp [hmap], Or.inr rfl⟩
  · rw [heq]
    refine ⟨min k bs.length, [], ?_, Or.inl rfl⟩
    simp only [← List.map_take, hmap]
    simp [List.take_succ_cons, List.take_replicate]

/-- C1 counterexample: run the Writer pipeline to completion with a
failing terminal result ("destination write failed"); writer.Close still
does not return that error (it returns nil), contradicting the claim that
close returns the pipeline's terminal error. -/
theorem writerClose_drops_pipeline_error :
    (writerClose (writerFinish writerInit
        (some "destination write failed"))).2.1 ≠
      some "destination write failed" := by decide

/-- C1 (amended): writer.Close waits for the background pipeline (its
result is a function of the post-completion state, and the done channel is
closed on return) and then returns nil in every case; the pipeline's
terminal error is attached to the pipe read end instead, so a subsequent
write on the handle fails with exactly that error. -/
theorem writerClose_returns_nil (r : Option GoErr) :
    (writerClose (writerFinish writerInit r)).2.1 = none ∧
      (writerFinish writerInit r).done = true ∧
      pipeWrite (writerFinish writerInit r).pw = r := by
  cases r <;> exact ⟨rfl, rfl, rfl⟩

/-- C10: closing the Sink Adapter handle a second time after the first
close returned: the pipe write end close is a no-op, the state is
unchanged, the returned error is nil, and the done receive does not block
(third component false). -/
theorem writerClose_idempotent (r : Option GoErr) :
    writerClose ((writerClose (writerFinish writerInit r)).1) =
      ((writerClose (writerFinish writerInit r)).1, none, false) := by
  cases r <;> rfl

/-- C5: encoding a zero-length source succeeds and writes exactly the
header immediately followed by the footer, with an empty body; closing
the Writer handle without ever writing (the background Encode then sees an
empty source and finishes with nil) also returns nil. -/
theorem encode_empty_source (options : List String) (tmux : Bool) :
    Encode options tmux [] none okSink =
      ([(Tag.header, encodeHeader options tmux),
        (Tag.footer, footerEscape tmux)], none) ∧
      encodeOutput options tmux [] =
        encodeHeader options tmux ++ footerEscape tmux ∧
      (writerClose (writerFinish writerInit none)).2.1 = none := by
  refine ⟨rfl, ?_, rfl⟩
  rw [encodeOutput_eq]
  simp only [List.flatten_nil]
  rw [show b64Encode [] = [] from rfl, List.append_nil]

/-- C3: with options width=80, height=24, inline=1, non-multiplexer mode
and input "AB" (bytes 65 66), the run writes exactly the header
ESC]1337;File=width=80;height=24;inline=1:, the body QUI=, and the footer
BEL newline. -/
theorem encode_example_ab :
    Encode [Width (Cells 80), Height (Cells 24), Inline true] false
        [[65, 66]] none okSink =
      ([(Tag.header, "\x1b]1337;File=width=80;height=24;inline=1:".data),
        (Tag.body, "QUI=".data),
        (Tag.footer, "\x07\n".data)], none) := by decide

/-- C2: every successful Encode run delivers to the destination exactly
the header bytes, then the standard padded base64 encoding of the input
bytes, then the footer bytes; and standard base64 decoding of that body
recovers the input exactly (round-trip law). -/
theorem encode_output_roundtrip (options : List String) (tmux : Bool)
    (srcChunks : List (List Nat)) (readErr : Option GoErr)
    (sink : Nat → Option GoErr)
    (hok : (Encode options tmux srcChunks readErr sink).2 = none)
    (hbytes : ∀ b ∈ srcChunks.flatten, b < 256) :
    ((Encode options tmux srcChunks readErr sink).1.map Prod.snd).flatten =
      encodeHeader options tmux ++ b64Encode srcChunks.flatten ++
        footerEscape tmux ∧
      b64Decode (b64Encode srcChunks.flatten) = srcChunks.flatten := by
  constructor
  · rw [Encode_eq_of_none _ _ _ _ _ hok]
    exact encodeOutput_eq options tmux srcChunks
  · exact b64_roundtrip _ hbytes

/-- C2 witness: the hypotheses hold and the conclusion follows at the
concrete input "AB" with option inline=1. -/
theorem encode_output_roundtrip_witness :
    ((Encode ["inline=1"] false [[65, 66]] none okSink).2 = none ∧
      (∀ b ∈ ([[65, 66]] : List (List Nat)).flatten, b < 256)) ∧
      (((Encode ["inline=1"] false [[65, 66]] none okSink).1.map
          Prod.snd).flatten =
        encodeHeader ["inline=1"] false ++
          b64Encode ([[65, 66]] : List (List Nat)).flatten ++
          footerEscape false ∧
        b64Decode (b64Encode ([[65, 66]] : List (List Nat)).flatten) =
          ([[65, 66]] : List (List Nat)).flatten) :=
  ⟨⟨by decide, by decide⟩,
    encode_output_roundtrip ["inline=1"] false [[65, 66]] none okSink
      (by decide) (by decide)⟩

/-- C4: for every option sequence and input, the multiplexer-mode output
and the non-multiplexer output share the identical attribute list, colon
and base64 body, and differ only in the introducer and terminator bytes
framing that common middle. -/
theorem encode_mux_framing (options : List String)
    (srcChunks : List (List Nat)) :
    encodeOutput options true srcChunks =
      "\x1bPtmux;\x1b\x1b]1337;File=".data ++
        (joinOpts options ++ ':' :: b64Encode srcChunks.flatten) ++
        "\x07\x1b\\\n".data ∧
      encodeOutput options false srcChunks =
        "\x1b]1337;File=".data ++
          (joinOpts options ++ ':' :: b64Encode srcChunks.flatten) ++
          "\x07\n".data := by
  constructor <;>
  · rw [encodeOutput_eq]
    simp [encodeHeader, headerEscape, footerEscape, List.append_assoc]

/-- C6: in every run, the write-event trace starts with the single header
write, continues with zero or more body writes, and ends with at most one
footer write: header, body and footer bytes never interleave. -/
theorem encode_write_order (options : List String) (tmux : Bool)
    (srcChunks : List (List Nat)) (readErr : Option GoErr)
    (sink : Nat → Option GoErr) :
    ∃ n t, (Encode options tmux srcChunks readErr sink).1.map Prod.fst =
      Tag.header :: (List.replicate n Tag.body ++ t) ∧
      (t = [] ∨ t = [Tag.footer]) := by
  simp only [Encode]
  exact composeDrain_tags sink _ _ _ _

/-- C7: if the destination sink's first write failure is at index k and a
failure actually occurs during the run (k is within the writes a clean run
performs), the encode returns that first write error and the write trace
is the clean run's trace cut off at the failing write: no further writes
occur after the failure point. -/
theorem encode_sink_write_fail (options : List String) (tmux : Bool)
    (srcChunks : List (List Nat)) (readErr : Option GoErr)
    (sink : Nat → Option GoErr) (k : Nat) (e : GoErr)
    (hfail : sink k = some e) (hsucc : ∀ j, j < k → sink j = none)
    (hlt : k < (Encode options tmux srcChunks readErr okSink).1.length) :
    Encode options tmux srcChunks readErr sink =
      ((Encode options tmux srcChunks readErr okSink).1.take (k + 1),
        some e) := by
  cases readErr with
  | some e2 =>
    simp only [Encode, transcodeFinalize_pipeInit] at hlt ⊢
    rw [composeDrain_okSink_some] at hlt ⊢
    simp only [List.length_cons] at hlt
    rw [composeDrain_fail_some sink _ e2 _ k e hfail hsucc (by simpa using hlt)]
  | none =>
    simp only [Encode, transcodeFinalize_pipeInit] at hlt ⊢
    rw [composeDrain_okSink_none] at hlt ⊢
    simp only [List.length_append, List.length_cons, List.length_nil] at hlt
    rcases Nat.lt_or_ge k ((Tag.header, encodeHeader options tmux) ::
        (encodeBodyChunks srcChunks).map (fun c => (Tag.body, c))).length
      with hk | hk
    · rw [composeDrain_fail_none_lt sink _ _ k e hfail hsucc hk]
      rw [List.take_append_of_le_length hk]
    · have hke : k = ((Tag.header, encodeHeader options tmux) ::
          (encodeBodyChunks srcChunks).map (fun c => (Tag.body, c))).length := by
        simp only [List.length_cons] at hk ⊢
        omega
      rw [composeDrain_fail_none_eq sink _ _ e (by rw [← hke]; exact hfail)
        (fun j hj => hsucc j (by omega))]
      rw [List.take_of_length_le (by simp [hke])]

/-- C7 witness: with the sink whose second write fails ("boom"), the run
on input "AB" returns the error and stops after the failing write. -/
theorem encode_sink_write_fail_witness :
    (boomSink 1 = some "boom" ∧ (∀ j, j < 1 → boomSink j = none) ∧
      1 < (Encode [] false [[65, 66]] none okSink).1.length) ∧
      Encode [] false [[65, 66]] none boomSink =
        ((Encode [] false [[65, 66]] none okSink).1.take 2, some "boom") :=
  ⟨⟨by decide, by decide, by decide⟩,
    encode_sink_write_fail [] false [[65, 66]] none boomSink 1 "boom"
      (by decide) (by decide) (by decide)⟩

/-- C8: when the source fails mid-read with error e, the transcode stage
closes the pipe exactly once carrying e (the second deferred close attempt
is a no-op, so the single terminal state is the first error), no flush of
the pending partial group and no footer write occur, and Encode returns
that same error. -/
theorem encode_read_error (options : List String) (tmux : Bool)
    (srcChunks : List (List Nat)) (e : GoErr) :
    Encode options tmux srcChunks (some e) okSink =
      ((Tag.header, encodeHeader options tmux) ::
        (transcodeChunks [] srcChunks).1.map (fun c => (Tag.body, c)),
        some e) ∧
      (∀ b, transcodeFinalize pipeInit (some e) b =
        { wclosed := true, werr := some e, rclosed := false, rerr := none }) := by
  constructor
  · simp only [Encode, transcodeFinalize_pipeInit]
    exact composeDrain_okSink_some _ e _
  · intro b
    cases b <;> rfl

/-- C9: the Name option constructor is total: the base64 encoder writing
into a bytes.Buffer cannot fail, so the fatal branch is unreachable and
Name always returns "name=" followed by the standard padded base64
encoding of the input. -/
theorem name_total (bs : List Nat) :
    Name bs = Except.ok ("name=".data ++ b64Encode bs) := by
  have hfull := b64Full_spec bs
  simp only [Name, b64SinkWrite, b64SinkClose, bufferWrite, List.nil_append]
  rcases hemp1 : (b64Full bs).1.isEmpty with _ | _ <;>
    rcases hemp2 : (b64Full bs).2.isEmpty with _ | _ <;>
      simp_all [List.isEmpty_iff, b64Encode]
